import Mathlib

/-!
Verification development for the Career-Portal scraping engine
(src/scraper/scraper.py).  The Python source is embedded shallowly:
pure code becomes Lean functions, stateful components become explicit
state passing, the wall clock and the network become oracle parameters,
and Python's process-salted string hash becomes an explicit function
parameter.  Times and delays are modelled as rationals; character
classes of the salary regexes are modelled over the ASCII range used by
the specification's test vectors.
-/

namespace CareerPortal


/-! ## Data model (dataclasses Job and Company, scraper.py lines 32-61) -/

/-- Embedding of the Job dataclass (scraper.py lines 32-51).  The
salary fields hold the nonnegative integers produced by extract_salary;
scraped_at / posted_date are opaque timestamp strings. -/
structure Job where
  id : String
  title : String
  company : String
  location : String
  description : String := ""
  url : String := ""
  posted_date : String := ""
  salary_min : Option Nat := none
  salary_max : Option Nat := none
  employment_type : Option String := none
  requirements : Option (List String) := none
  benefits : Option (List String) := none
  scraped_at : String := ""
deriving DecidableEq, Repr

/-- Embedding of the Company dataclass (scraper.py lines 53-61).
Selectors are a string-keyed mapping; rate_limit defaults to 2.0
seconds, exactly as in the source. -/
structure Company where
  name : String
  career_url : String
  base_url : String
  selectors : List (String × String) := []
  rate_limit : ℚ := 2
  last_scraped : Option String := none
deriving DecidableEq, Repr

/-! ## Job id derivation (extract_jobs_generic, scraper.py line 362)

The source builds the id, at line 362, as the lower-cased company name
with spaces replaced by underscores, then an underscore, then the value
of hash applied to the concatenation of title and location, reduced
modulo 10000.
Python's built-in hash on strings is salted per process
(PYTHONHASHSEED), so it is modelled as an explicit parameter
h : String → Int supplied by the run; Python's % with a positive
modulus is Int.emod. -/
/-- Lower-case the company name and replace each space with an
underscore (ASCII lower-casing), as at line 362. -/
def pySlug (name : String) : String :=
  ⟨(name.data.map Char.toLower).map (fun c => if c = ' ' then '_' else c)⟩

/-- Python's hash(...) % 10000: the remainder is in [0, 10000) even for
negative hash values, matching Python's % on a positive modulus. -/
def pyMod10000 (z : Int) : Nat := (z.emod 10000).toNat

/-- The id assigned at scraper.py line 362, with the process's string
hash passed in as h. -/
def job_id (h : String → Int) (name title location : String) : String :=
  pySlug name ++ "_" ++ toString (pyMod10000 (h (title ++ location)))

/-- Job record built by extract_jobs_generic (scraper.py lines 372-382)
for one container, given the already-extracted fields. -/
def extractedJob (h : String → Int) (c : Company) (title location description url : String)
    (smin smax : Option Nat) (now : String) : Job :=
  { id := job_id h c.name title location
    title := title
    company := c.name
    location := location
    description := ⟨description.data.take 1000⟩
    url := url
    posted_date := now
    salary_min := smin
    salary_max := smax
    scraped_at := now }

/-! ## Persistence: save_job (DatabaseManager.save_job, lines 198-223)

The jobs table has id as PRIMARY KEY and url as UNIQUE; INSERT OR
REPLACE deletes every row that conflicts on either constraint and then
inserts the new row.  The table is modelled as a list of rows. -/
/-- INSERT OR REPLACE INTO jobs keyed by the id primary key (and the
url UNIQUE constraint), scraper.py lines 204-216. -/
def save_job (j : Job) (db : List Job) : List Job :=
  (db.filter (fun x => !(x.id = j.id || x.url = j.url))) ++ [j]

/-- The set of id strings that extract_jobs_generic can ever assign for
a given target name: the slug followed by one of the 10000 residues. -/
def possibleIds (name : String) : Finset String :=
  (Finset.range 10000).image (fun k => pySlug name ++ "_" ++ toString k)

/-! ## Proxy pool (ProxyManager, scraper.py lines 78-114)

The pool state holds the active and failed index sets, the sticky
current index and the last-rotation timestamp.  random.choice over the
active list is modelled by an oracle pick : Finset ℕ → ℕ; theorems
that need it assume pick returns a member of any nonempty set. -/
structure ProxyState where
  numProxies : ℕ
  active : Finset ℕ
  failed : Finset ℕ
  current : ℕ
  lastRotation : ℚ
  rotationInterval : ℚ
deriving DecidableEq

/-- ProxyManager.__init__ (scraper.py lines 81-87): all indices start
active, the failed set is empty, current is 0, the rotation interval is
300 seconds. -/
def initProxy (n : ℕ) (t0 : ℚ) : ProxyState :=
  { numProxies := n
    active := Finset.range n
    failed := ∅
    current := 0
    lastRotation := t0
    rotationInterval := 300 }

/-- ProxyManager.get_next_proxy (scraper.py lines 89-101): none when
the active set is empty; otherwise reassign current (uniformly at
random, modelled by pick) when the rotation interval has elapsed or the
current index is no longer active, and return the current index. -/
def get_next_proxy (pick : Finset ℕ → ℕ) (now : ℚ) (s : ProxyState) :
    Option ℕ × ProxyState :=
  if s.active = ∅ then (none, s)
  else
    let s2 :=
      if s.rotationInterval < now - s.lastRotation ∨ s.current ∉ s.active then
        { s with current := pick s.active, lastRotation := now }
      else s
    (some s2.current, s2)

/-- ProxyManager.mark_proxy_failed (scraper.py lines 103-108):
idempotently move an index from active to failed. -/
def mark_proxy_failed (i : ℕ) (s : ProxyState) : ProxyState :=
  if i ∈ s.active then
    { s with active := s.active.erase i, failed := insert i s.failed }
  else s

/-- ProxyManager.reset_failed_proxies (scraper.py lines 110-114). -/
def reset_failed_proxies (s : ProxyState) : ProxyState :=
  { s with active := s.active ∪ s.failed, failed := ∅ }

/-- One observable pool operation; next carries the wall-clock reading
taken inside get_next_proxy. -/
inductive POp where
  | next (now : ℚ)
  | mark (i : ℕ)
  | reset
deriving DecidableEq, Repr

/-- Apply one operation, yielding the new state and the value returned
to the caller (only next returns one). -/
def applyOp (pick : Finset ℕ → ℕ) (s : ProxyState) : POp → ProxyState × Option ℕ
  | .next now => let r := get_next_proxy pick now s; (r.2, r.1)
  | .mark i => (mark_proxy_failed i s, none)
  | .reset => (reset_failed_proxies s, none)

/-- Run a sequence of pool operations from a state. -/
def runOps (pick : Finset ℕ → ℕ) (s : ProxyState) : List POp → ProxyState
  | [] => s
  | op :: rest => runOps pick (applyOp pick s op).1 rest

/-- The values handed back to callers along a run (none for ops that
return nothing). -/
def outputs (pick : Finset ℕ → ℕ) (s : ProxyState) : List POp → List (Option ℕ)
  | [] => []
  | op :: rest => (applyOp pick s op).2 :: outputs pick (applyOp pick s op).1 rest

/-- A concrete valid choice oracle: the least element of the set. -/
def pickMin (t : Finset ℕ) : ℕ :=
  if h : t.Nonempty then t.min' h else 0

/-- The pool invariant of §3 of the specification: the two sets are
disjoint and together cover exactly the configured indices. -/
def PoolInv (n : ℕ) (s : ProxyState) : Prop :=
  s.active ∩ s.failed = ∅ ∧ s.active ∪ s.failed = Finset.range n

/-! ## Rate limiter (RateLimiter.wait_if_needed, scraper.py lines 116-133)

The per-domain last-request map is a function String → Option ℚ.  The
method reads the clock twice: t1 before computing the elapsed time and
t2 when recording the new last-request time after the (possible)
sleep; both readings are oracle inputs.  The returned rational is the
duration passed to asyncio.sleep (0 when no sleep happens). -/
/-- RateLimiter.wait_if_needed: returns (sleep duration, updated map). -/
def wait_if_needed (st : String → Option ℚ) (domain : String)
    (minDelay t1 t2 : ℚ) : ℚ × (String → Option ℚ) :=
  let waitTime :=
    match st domain with
    | some last => if t1 - last < minDelay then minDelay - (t1 - last) else 0
    | none => 0
  (waitTime, fun d => if d = domain then some t2 else st d)

/-! ## Fetch engine (JobScraper.fetch_page, scraper.py lines 289-334)

The loop over attempts 0,1,2 is embedded with the network as an oracle:
ctx.outcomes a is what the GET on attempt a would produce, and
ctx.proxyAt a is the proxy index in use on attempt a (none when no
proxy manager is configured or the pool is exhausted).  All externally
visible effects are collected as an event trace. -/
/-- Outcome of one GET, classifying scraper.py lines 308-323. -/
inductive HttpOutcome where
  | ok (body : String)
  | rateLimited
  | otherStatus (code : ℕ)
  | timeout
  | transportError
deriving DecidableEq, Repr

/-- Returns true exactly for a 200 response. -/
def HttpOutcome.isOk : HttpOutcome → Bool
  | .ok _ => true
  | _ => false

/-- Per-attempt oracle for one fetch_page call. -/
structure FetchCtx where
  outcomes : ℕ → HttpOutcome
  proxyAt : ℕ → Option ℕ

/-- Observable effect of fetch_page: the rate-limit wait (line 297),
the GET itself, the 429 sleep (line 316), marking a proxy failed
(line 328) and the inter-attempt backoff sleep (line 332). -/
inductive FetchEvent where
  | rateWait (domain : String) (minDelay : ℚ)
  | request (attempt : ℕ) (proxy : Option ℕ)
  | rateLimitSleep (secs : ℕ)
  | markFailed (idx : ℕ)
  | backoffSleep (secs : ℕ)
deriving DecidableEq, Repr

/-- urlparse(url).netloc, approximated for scheme://host/path URLs:
the text between "://" and the next slash. -/
def afterScheme : List Char → List Char
  | [] => []
  | ':' :: '/' :: '/' :: rest => rest
  | _ :: rest => afterScheme rest

/-- Domain component of a URL. -/
def urlDomain (url : String) : String :=
  ⟨(afterScheme url.data).takeWhile (fun c => c ≠ '/')⟩

/-- Effects of the per-outcome branch of one failed attempt: the extra
429 sleep (line 316), or marking the in-use proxy failed on a
non-timeout exception (lines 326-328).  Timeouts (lines 320-321) and
other HTTP statuses (line 318) only log. -/
def branchEvents (attempt : ℕ) (o : HttpOutcome) (proxy : Option ℕ) :
    List FetchEvent :=
  match o with
  | .rateLimited => [FetchEvent.rateLimitSleep (2 ^ attempt)]
  | .transportError =>
    match proxy with
    | some i => [FetchEvent.markFailed i]
    | none => []
  | _ => []

/-- The attempt loop of fetch_page, starting at a given attempt number
with a given number of remaining iterations (the source runs it as
range(3)).  Mirrors lines 293-334: rate-limit wait with the hard-coded
minimum delay 2.0, proxy resolution, the GET, the per-outcome branch,
and the backoff sleep before every non-final attempt. -/
def fetch_loop (ctx : FetchCtx) (domain : String) :
    ℕ → ℕ → Option String × List FetchEvent
  | _, 0 => (none, [])
  | attempt, rem + 1 =>
    let pre := [FetchEvent.rateWait domain 2,
                FetchEvent.request attempt (ctx.proxyAt attempt)]
    match ctx.outcomes attempt with
    | .ok body => (some body, pre)
    | o =>
      let backoff :=
        if 0 < rem then [FetchEvent.backoffSleep (2 ^ attempt)] else []
      let rest := fetch_loop ctx domain (attempt + 1) rem
      (rest.1,
        pre ++ branchEvents attempt o (ctx.proxyAt attempt) ++ backoff ++ rest.2)

/-- JobScraper.fetch_page(url, company): max_retries = 3 attempts over
the URL's domain.  The company argument is only the company name and is
unused by the body, exactly as in the source (lines 289-334). -/
def fetch_page (ctx : FetchCtx) (url _company : String) :
    Option String × List FetchEvent :=
  fetch_loop ctx (urlDomain url) 0 3

/-- Number of GETs issued in a trace. -/
def requestCount (evs : List FetchEvent) : ℕ :=
  (evs.filter (fun e => match e with | .request _ _ => true | _ => false)).length

/-- The backoff sleeps of a trace, in order. -/
def backoffSleeps (evs : List FetchEvent) : List ℕ :=
  evs.filterMap (fun e => match e with | .backoffSleep n => some n | _ => none)

/-- The rate-limit minimum delays passed to the rate limiter in a
trace, in order. -/
def rateWaitDelays (evs : List FetchEvent) : List ℚ :=
  evs.filterMap (fun e => match e with | .rateWait _ m => some m | _ => none)

/-! ## Orchestrator (scrape_company and scrape_all_companies,
scraper.py lines 432-511)

Each target's effects are an oracle: the fetch result, the extractor
outcome (which may be an exception, caught by scrape_company's outer
try), the per-job save_job results (save_job swallows its own errors
and returns a boolean, lines 198-223), and an optional fault escaping
the task itself (captured by asyncio.gather(..., return_exceptions=True)).
The Python dict built at lines 504-509 is modelled as an association
list with dict update semantics (insertion order, in-place overwrite of
an existing key). -/
/-- Per-target effects for one orchestrator run.  saveOk n is the
boolean save_job returns for the n-th extracted job (false on a
persistence failure, line 223). -/
structure TargetRun where
  fetch : Option String
  extractJobs : Except String (List Job)
  saveOk : ℕ → Bool := fun _ => true
  taskFault : Option String := none

/-- JobScraper.scrape_company (lines 432-486): jobs is [] before the
try block; a failed fetch raises and is caught (returning []); an
extractor exception is caught by the same handler (returning []); on
success the extracted jobs are returned (line 486) even if some or all
saves or the session log fail, since save_job and log_scrape_session
swallow their own errors — the save results feed only the saved_count
tally of line 452, never the returned list, so the body does not
consult saveOk. -/
def scrape_company (r : TargetRun) : List Job :=
  match r.fetch with
  | none => []
  | some _ =>
    match r.extractJobs with
    | .error _ => []
    | .ok jobs => jobs

/-- The saved_count of scrape_company (lines 449-452): save_job runs
once per extracted job and only the number of successful saves is
tallied (then logged); it is not part of the returned value. -/
def saved_count (r : TargetRun) : ℕ :=
  ((List.range (scrape_company r).length).filter (fun i => r.saveOk i)).length

/-- The value asyncio.gather hands back for one target's task:
an exception object when a fault escaped the task, otherwise
scrape_company's return value. -/
def taskResult (r : TargetRun) : Except String (List Job) :=
  match r.taskFault with
  | some e => .error e
  | none => .ok (scrape_company r)

/-- Lines 504-509: isinstance(result, Exception) is replaced by an
empty job list; otherwise the job list is kept. -/
def gatherProcess : Except String (List Job) → List Job
  | .error _ => []
  | .ok jobs => jobs

/-- Python dict assignment d[k] = v on an insertion-ordered
association list. -/
def dictInsert (m : List (String × List Job)) (k : String) (v : List Job) :
    List (String × List Job) :=
  if m.any (fun p => p.1 = k) then
    m.map (fun p => if p.1 = k then (k, v) else p)
  else m ++ [(k, v)]

/-- JobScraper.scrape_all_companies (lines 488-511) over the configured
targets paired with their per-target effect oracles. -/
def scrape_all_companies (targets : List (Company × TargetRun)) :
    List (String × List Job) :=
  targets.foldl
    (fun acc cr => dictInsert acc cr.1.name (gatherProcess (taskResult cr.2))) []

/-- A per-target fault that empties the target's result: failed fetch,
extractor exception, or a fault escaping the task.  Persistence
failures are deliberately not here: save_job swallows them and
scrape_company still returns the extracted jobs. -/
def HasFault (r : TargetRun) : Prop :=
  r.fetch = none ∨ (∃ e, r.extractJobs = .error e) ∨ r.taskFault ≠ none

/-- The per-target value inserted into the result dict. -/
def targetValue (cr : Company × TargetRun) : List Job :=
  gatherProcess (taskResult cr.2)

/-- The fold underlying scrape_all_companies, from an arbitrary
accumulator. -/
def scrapeFold (acc : List (String × List Job))
    (ts : List (Company × TargetRun)) : List (String × List Job) :=
  ts.foldl (fun acc cr => dictInsert acc cr.1.name (targetValue cr)) acc

/-! ## Salary parsing (JobScraper.extract_salary, scraper.py lines 395-430)

The three regular expressions
  1. [\$£€](\d+),?(\d+)?k?\s*-\s*[\$£€]?(\d+),?(\d+)?k?
  2. (\d+),?(\d+)?\s*-\s*(\d+),?(\d+)?\s*k
  3. [\$£€](\d+),?(\d+)
are linear sequences of single-character classes under the quantifiers
?, + and *, so each is embedded as a token list and matched by a
backtracking matcher with Python's greedy leftmost semantics:
quantifiers prefer consuming, re.search tries start positions left to
right, and a match may leave a suffix unconsumed.  re.IGNORECASE only
affects the letter k.  \d and \s are modelled over the ASCII range. -/
/-- One token of a linearised regex.  grpAcc is the internal state of a
capturing group that has consumed acc so far. -/
inductive Tok where
  | cls (p : Char → Bool)
  | optCls (p : Char → Bool)
  | star (p : Char → Bool)
  | grpPlus (p : Char → Bool)
  | grpOpt (p : Char → Bool)
  | grpAcc (p : Char → Bool) (acc : List Char)

/-- Greedy backtracking matcher: matches a prefix of the input against
the token list and returns the captures of the capturing groups in
order (none for an unmatched optional group), or none when no
assignment matches.  Greedy choices are tried first, matching Python's
re backtracking order. -/
def matchToks : List Tok → List Char → Option (List (Option (List Char)))
  | [], _ => some []
  | .cls _ :: _, [] => none
  | .cls p :: rest, c :: s => if p c then matchToks rest s else none
  | .optCls _ :: rest, [] => matchToks rest []
  | .optCls p :: rest, c :: s =>
    if p c then (matchToks rest s).orElse (fun _ => matchToks rest (c :: s))
    else matchToks rest (c :: s)
  | .star _ :: rest, [] => matchToks rest []
  | .star p :: rest, c :: s =>
    if p c then
      (matchToks (.star p :: rest) s).orElse (fun _ => matchToks rest (c :: s))
    else matchToks rest (c :: s)
  | .grpPlus _ :: _, [] => none
  | .grpPlus p :: rest, c :: s =>
    if p c then matchToks (.grpAcc p [c] :: rest) s else none
  | .grpOpt _ :: rest, [] => (matchToks rest []).map (fun caps => none :: caps)
  | .grpOpt p :: rest, c :: s =>
    if p c then
      (matchToks (.grpAcc p [c] :: rest) s).orElse
        (fun _ => (matchToks rest (c :: s)).map (fun caps => none :: caps))
    else (matchToks rest (c :: s)).map (fun caps => none :: caps)
  | .grpAcc _ acc :: rest, [] =>
    (matchToks rest []).map (fun caps => some acc :: caps)
  | .grpAcc p acc :: rest, c :: s =>
    if p c then
      (matchToks (.grpAcc p (acc ++ [c]) :: rest) s).orElse
        (fun _ => (matchToks rest (c :: s)).map (fun caps => some acc :: caps))
    else (matchToks rest (c :: s)).map (fun caps => some acc :: caps)
termination_by toks s => toks.length + s.length

/-- re.search: try the match at every start position, leftmost first. -/
def searchToks (toks : List Tok) : List Char → Option (List (Option (List Char)))
  | [] => matchToks toks []
  | c :: s => (matchToks toks (c :: s)).orElse (fun _ => searchToks toks s)

/-- The character class \d (ASCII digits). -/
def digitC (c : Char) : Bool := c.isDigit

/-- The character class \s (ASCII whitespace). -/
def spaceC (c : Char) : Bool :=
  c = ' ' || c = '\t' || c = '\n' || c = '\r' || c = '\x0b' || c = '\x0c'

/-- The character class [\$£€]. -/
def currC (c : Char) : Bool := c = '$' || c = '£' || c = '€'

/-- The literal comma of ",?". -/
def commaC (c : Char) : Bool := c = ','

/-- The literal k under re.IGNORECASE. -/
def kC (c : Char) : Bool := c = 'k' || c = 'K'

/-- The literal dash. -/
def dashC (c : Char) : Bool := c = '-'

/-- Pattern [\$£€](\d+),?(\d+)?k?\s*-\s*[\$£€]?(\d+),?(\d+)?k?
(scraper.py line 402). -/
def pattern1 : List Tok :=
  [.cls currC, .grpPlus digitC, .optCls commaC, .grpOpt digitC, .optCls kC,
   .star spaceC, .cls dashC, .star spaceC, .optCls currC, .grpPlus digitC,
   .optCls commaC, .grpOpt digitC, .optCls kC]

/-- Pattern (\d+),?(\d+)?\s*-\s*(\d+),?(\d+)?\s*k (scraper.py
line 403). -/
def pattern2 : List Tok :=
  [.grpPlus digitC, .optCls commaC, .grpOpt digitC, .star spaceC, .cls dashC,
   .star spaceC, .grpPlus digitC, .optCls commaC, .grpOpt digitC,
   .star spaceC, .cls kC]

/-- Pattern [\$£€](\d+),?(\d+) (scraper.py line 404). -/
def pattern3 : List Tok :=
  [.cls currC, .grpPlus digitC, .optCls commaC, .grpPlus digitC]

/-- Python int() on a concatenation of matched digit groups.  The
groups only ever hold decimal digits, so the ValueError branch of the
source (line 427) is unreachable. -/
def natOfDigits (l : List Char) : Nat :=
  l.foldl (fun n c => 10 * n + (c.toNat - 48)) 0

/-- int(groups[0] + (groups[1] or '')) and
int(groups[2] + (groups[3] or '')) for the four-group range patterns
(lines 412-414).  Groups 0 and 2 come from required (\d+) groups and
are always present on a match. -/
def groupsToRange (g : List (Option (List Char))) : Option (Nat × Nat) :=
  match g with
  | [some a, b, some c, d] =>
    some (natOfDigits (a ++ b.getD []), natOfDigits (c ++ d.getD []))
  | _ => none

/-- int(groups[0] + (groups[1] or '')) for the two-group single-value
pattern (line 423); both groups are required (\d+) groups. -/
def groupsToSingle (g : List (Option (List Char))) : Option (Nat × Nat) :=
  match g with
  | [some a, some b] =>
    some (natOfDigits (a ++ b), natOfDigits (a ++ b))
  | _ => none

/-- The (min, max) parsed from the first pattern that matches, before
the k scaling (the for-loop of lines 407-428). -/
def extract_salary_match (s : List Char) : Option (Nat × Nat) :=
  match searchToks pattern1 s with
  | some g => groupsToRange g
  | none =>
    match searchToks pattern2 s with
    | some g => groupsToRange g
    | none =>
      match searchToks pattern3 s with
      | some g => groupsToSingle g
      | none => none

/-- Test whether the letter k occurs in the text, case-insensitively
(lines 417 and 424). -/
def hasK (s : String) : Bool := s.data.any (fun c => c = 'k' || c = 'K')

/-- JobScraper.extract_salary.  The ×1000 scaling test is identical in
every matching branch of the source, so it is applied once to the
matched pair. -/
def extract_salary (s : String) : Option Nat × Option Nat :=
  if s.data = [] then (none, none)
  else
    match extract_salary_match s.data with
    | some (lo, hi) =>
      if hasK s then (some (lo * 1000), some (hi * 1000)) else (some lo, some hi)
    | none => (none, none)

/-! ## Concrete fixtures used by witnesses and counterexamples -/
/-- A company with only a name (the other fields do not influence the
job id). -/
def companyNamed (nm : String) : Company :=
  { name := nm, career_url := "", base_url := "",
    selectors := [], rate_limit := 2, last_scraped := none }

/-- A configured target whose per-target minimum delay is 5 seconds. -/
def acmeCompany : Company :=
  { name := "Acme", career_url := "http://acme.example/careers",
    base_url := "http://acme.example", selectors := [],
    rate_limit := 5, last_scraped := none }

/-- A run in which every GET times out while proxy 5 is in use. -/
def ctxTimeoutOnly : FetchCtx :=
  { outcomes := fun _ => HttpOutcome.timeout, proxyAt := fun _ => some 5 }

/-- A run in which every GET hits a transport error while proxy 3 is in
use. -/
def ctxTransport : FetchCtx :=
  { outcomes := fun _ => HttpOutcome.transportError, proxyAt := fun _ => some 3 }

/-- A run whose first two attempts time out and whose third attempt
returns 200. -/
def ctxThirdOk : FetchCtx :=
  { outcomes := fun n => if n = 2 then HttpOutcome.ok "page" else HttpOutcome.timeout,
    proxyAt := fun _ => none }

/-- A rate-limiter map with one recorded domain. -/
def stW : String → Option ℚ := fun d => if d = "a.com" then some 10 else none

/-- A single target whose career-page fetch fails. -/
def tW0 : Company × TargetRun :=
  (companyNamed "Alpha", { fetch := none, extractJobs := Except.ok [], taskFault := none })

/-- One concrete extracted job. -/
def jobBeta : Job :=
  { id := "beta_0", title := "Engineer", company := "Beta", location := "Remote" }

/-- A target whose fetch and extraction succeed but whose every
save_job call fails. -/
def tPersist : Company × TargetRun :=
  (companyNamed "Beta",
   { fetch := some "page", extractJobs := Except.ok [jobBeta],
     saveOk := fun _ => false, taskFault := none })

/-- A two-target batch: one fetch-failed target and one target with
only persistence failures. -/
def targetsW : List (Company × TargetRun) := [tW0, tPersist]


/-! ## Lemmas and claim theorems -/

lemma pyMod10000_lt (z : Int) : pyMod10000 z < 10000 := by
  have h1 : z.emod 10000 < 10000 := Int.emod_lt_of_pos z (by norm_num)
  have h0 : (0 : Int) ≤ z.emod 10000 := Int.emod_nonneg z (by norm_num)
  unfold pyMod10000
  omega

lemma job_id_mem_possibleIds (h : String → Int) (name title location : String) :
    job_id h name title location ∈ possibleIds name := by
  unfold job_id possibleIds
  exact Finset.mem_image.mpr
    ⟨pyMod10000 (h (title ++ location)),
     Finset.mem_range.mpr (pyMod10000_lt _), rfl⟩

lemma pickMin_mem (t : Finset ℕ) (h : t.Nonempty) : pickMin t ∈ t := by
  unfold pickMin
  rw [dif_pos h]
  exact t.min'_mem h

/-- Any index returned by get_next_proxy is in the pre-call active set
(the active set is unchanged by the call). -/
lemma get_next_proxy_mem_active (pick : Finset ℕ → ℕ)
    (hpick : ∀ t : Finset ℕ, t.Nonempty → pick t ∈ t)
    (now : ℚ) (s : ProxyState) (j : ℕ)
    (hj : (get_next_proxy pick now s).1 = some j) : j ∈ s.active := by
  unfold get_next_proxy at hj
  by_cases hA : s.active = ∅
  · simp [hA] at hj
  · rw [if_neg hA] at hj
    simp only at hj
    by_cases hrot : s.rotationInterval < now - s.lastRotation ∨ s.current ∉ s.active
    · rw [if_pos hrot] at hj
      simp only [Option.some.injEq] at hj
      subst hj
      exact hpick s.active (Finset.nonempty_iff_ne_empty.mpr hA)
    · rw [if_neg hrot] at hj
      simp only [Option.some.injEq] at hj
      subst hj
      push_neg at hrot
      exact hrot.2

/-- get_next_proxy never modifies the active or failed sets. -/
lemma get_next_proxy_sets (pick : Finset ℕ → ℕ) (now : ℚ) (s : ProxyState) :
    (get_next_proxy pick now s).2.active = s.active ∧
      (get_next_proxy pick now s).2.failed = s.failed := by
  unfold get_next_proxy
  by_cases hA : s.active = ∅
  · simp [hA]
  · rw [if_neg hA]
    by_cases hrot : s.rotationInterval < now - s.lastRotation ∨ s.current ∉ s.active
    · simp [hrot]
    · simp [hrot]

lemma poolInv_init (n : ℕ) (t0 : ℚ) : PoolInv n (initProxy n t0) := by
  constructor <;> simp [initProxy]

lemma poolInv_mark (n i : ℕ) (s : ProxyState) (h : PoolInv n s) :
    PoolInv n (mark_proxy_failed i s) := by
  obtain ⟨hdisj, hcover⟩ := h
  unfold mark_proxy_failed
  by_cases hi : i ∈ s.active
  · rw [if_pos hi]
    have hif : i ∉ s.failed := by
      intro hfi
      have : i ∈ s.active ∩ s.failed := Finset.mem_inter.mpr ⟨hi, hfi⟩
      rw [hdisj] at this
      exact absurd this (Finset.not_mem_empty i)
    constructor
    · ext j
      simp only [Finset.mem_inter, Finset.mem_erase, Finset.mem_insert,
        Finset.not_mem_empty, iff_false]
      rintro ⟨⟨hji, hja⟩, hj⟩
      rcases hj with rfl | hjf
      · exact hji rfl
      · have : j ∈ s.active ∩ s.failed := Finset.mem_inter.mpr ⟨hja, hjf⟩
        rw [hdisj] at this
        exact absurd this (Finset.not_mem_empty j)
    · rw [← hcover]
      ext j
      simp only [Finset.mem_union, Finset.mem_erase, Finset.mem_insert]
      constructor
      · rintro (⟨_, hja⟩ | (rfl | hjf))
        · exact Or.inl hja
        · exact Or.inl hi
        · exact Or.inr hjf
      · rintro (hja | hjf)
        · by_cases hji : j = i
          · subst hji; exact Or.inr (Or.inl rfl)
          · exact Or.inl ⟨hji, hja⟩
        · exact Or.inr (Or.inr hjf)
  · rw [if_neg hi]
    exact ⟨hdisj, hcover⟩

lemma poolInv_reset (n : ℕ) (s : ProxyState) (h : PoolInv n s) :
    PoolInv n (reset_failed_proxies s) := by
  obtain ⟨hdisj, hcover⟩ := h
  unfold reset_failed_proxies
  refine ⟨by simp, ?_⟩
  simpa using hcover

lemma poolInv_next (n : ℕ) (pick : Finset ℕ → ℕ) (now : ℚ) (s : ProxyState)
    (h : PoolInv n s) : PoolInv n (get_next_proxy pick now s).2 := by
  obtain ⟨ha, hf⟩ := get_next_proxy_sets pick now s
  exact ⟨by rw [ha, hf]; exact h.1, by rw [ha, hf]; exact h.2⟩

lemma poolInv_runOps (n : ℕ) (pick : Finset ℕ → ℕ) (s : ProxyState)
    (ops : List POp) (h : PoolInv n s) : PoolInv n (runOps pick s ops) := by
  induction ops generalizing s with
  | nil => exact h
  | cons op rest ih =>
    cases op with
    | next now => exact ih _ (poolInv_next n pick now s h)
    | mark i => exact ih _ (poolInv_mark n i s h)
    | reset => exact ih _ (poolInv_reset n s h)

/-- mark_proxy_failed i always leaves i outside the active set. -/
lemma mark_not_active (i : ℕ) (s : ProxyState) :
    i ∉ (mark_proxy_failed i s).active := by
  unfold mark_proxy_failed
  by_cases hi : i ∈ s.active
  · rw [if_pos hi]
    simp
  · rw [if_neg hi]
    exact hi

/-- Along any reset-free sequence of operations started with i outside
the active set, i stays outside the active set and is never handed out
by get_next_proxy. -/
lemma not_active_outputs (pick : Finset ℕ → ℕ)
    (hpick : ∀ t : Finset ℕ, t.Nonempty → pick t ∈ t)
    (i : ℕ) (s : ProxyState) (hs : i ∉ s.active)
    (ops : List POp) (hops : POp.reset ∉ ops) :
    (∀ o ∈ outputs pick s ops, o ≠ some i) ∧ i ∉ (runOps pick s ops).active := by
  induction ops generalizing s with
  | nil => exact ⟨by intro o ho; exact absurd ho (List.not_mem_nil o), hs⟩
  | cons op rest ih =>
    have hop : op ≠ POp.reset := by
      intro h; exact hops (h ▸ List.mem_cons_self op rest)
    have hrest : POp.reset ∉ rest := fun h => hops (List.mem_cons_of_mem op h)
    cases op with
    | next now =>
      have hsets := get_next_proxy_sets pick now s
      have hs2 : i ∉ (get_next_proxy pick now s).2.active := by
        rw [hsets.1]; exact hs
      obtain ⟨hrec, hfin⟩ := ih _ hs2 hrest
      refine ⟨?_, by simpa [runOps, applyOp] using hfin⟩
      intro o ho
      simp only [outputs, applyOp, List.mem_cons] at ho
      rcases ho with rfl | ho
      · intro hoi
        exact hs (get_next_proxy_mem_active pick hpick now s i hoi)
      · exact hrec o ho
    | mark j =>
      have hs2 : i ∉ (mark_proxy_failed j s).active := by
        unfold mark_proxy_failed
        by_cases hj : j ∈ s.active
        · rw [if_pos hj]
          simp only [Finset.mem_erase, not_and_or]
          exact Or.inr hs
        · rw [if_neg hj]; exact hs
      obtain ⟨hrec, hfin⟩ := ih _ hs2 hrest
      refine ⟨?_, by simpa [runOps, applyOp] using hfin⟩
      intro o ho
      simp only [outputs, applyOp, List.mem_cons] at ho
      rcases ho with rfl | ho
      · exact fun h => Option.noConfusion h
      · exact hrec o ho
    | reset => exact absurd rfl hop

lemma any_fst_eq (m : List (String × List Job)) (k : String) :
    (m.any fun p => p.1 = k) = true ↔ k ∈ m.map Prod.fst := by
  rw [List.any_eq_true]
  constructor
  · rintro ⟨p, hp, hpk⟩
    simp only [decide_eq_true_eq] at hpk
    exact List.mem_map.mpr ⟨p, hp, hpk⟩
  · intro h
    obtain ⟨p, hp, hpk⟩ := List.mem_map.mp h
    exact ⟨p, hp, by simp [hpk]⟩

lemma dictInsert_keys (m : List (String × List Job)) (k : String) (v : List Job) :
    (dictInsert m k v).map Prod.fst =
      if k ∈ m.map Prod.fst then m.map Prod.fst else m.map Prod.fst ++ [k] := by
  unfold dictInsert
  by_cases hk : k ∈ m.map Prod.fst
  · rw [if_pos ((any_fst_eq m k).mpr hk), if_pos hk, List.map_map]
    apply List.map_congr_left
    intro p _
    by_cases hp : p.1 = k
    · simp only [Function.comp_apply, if_pos hp]
      exact hp.symm
    · simp only [Function.comp_apply, if_neg hp]
  · have hany : ¬(m.any fun p => p.1 = k) = true :=
      fun h => hk ((any_fst_eq m k).mp h)
    rw [if_neg hany, if_neg hk, List.map_append]
    rfl

lemma dictInsert_keys_nodup (m : List (String × List Job)) (k : String)
    (v : List Job) (h : (m.map Prod.fst).Nodup) :
    ((dictInsert m k v).map Prod.fst).Nodup := by
  rw [dictInsert_keys]
  by_cases hk : k ∈ m.map Prod.fst
  · rw [if_pos hk]; exact h
  · rw [if_neg hk]
    rw [List.nodup_append]
    exact ⟨h, List.nodup_singleton k, by
      intro a ha
      simp only [List.mem_singleton]
      intro hak
      exact hk (hak ▸ ha)⟩

lemma dictInsert_keys_mem (m : List (String × List Job)) (k : String)
    (v : List Job) (a : String) :
    a ∈ (dictInsert m k v).map Prod.fst ↔ a ∈ m.map Prod.fst ∨ a = k := by
  rw [dictInsert_keys]
  by_cases hk : k ∈ m.map Prod.fst
  · rw [if_pos hk]
    constructor
    · exact Or.inl
    · rintro (h | rfl)
      · exact h
      · exact hk
  · rw [if_neg hk]
    simp

lemma lookup_eq_none (m : List (String × List Job)) (k : String)
    (h : k ∉ m.map Prod.fst) : m.lookup k = none := by
  induction m with
  | nil => rfl
  | cons p rest ih =>
    obtain ⟨pk, pv⟩ := p
    simp only [List.map_cons, List.mem_cons, not_or] at h
    rw [List.lookup_cons, show (k == pk) = false from
      beq_eq_false_iff_ne.mpr h.1]
    exact ih h.2

lemma lookup_dictInsert_self (m : List (String × List Job)) (k : String)
    (v : List Job) : (dictInsert m k v).lookup k = some v := by
  unfold dictInsert
  by_cases hk : k ∈ m.map Prod.fst
  · rw [if_pos ((any_fst_eq m k).mpr hk)]
    induction m with
    | nil => simp at hk
    | cons p rest ih =>
      obtain ⟨pk, pv⟩ := p
      by_cases hp : pk = k
      · rw [List.map_cons]
        rw [show (if (pk, pv).1 = k then (k, v) else (pk, pv)) = (k, v) from
          if_pos hp]
        rw [List.lookup_cons]
        simp
      · rw [List.map_cons]
        rw [show (if (pk, pv).1 = k then (k, v) else (pk, pv)) = (pk, pv) from
          if_neg hp]
        rw [List.lookup_cons, show (k == pk) = false from
          beq_eq_false_iff_ne.mpr (fun h2 => hp h2.symm)]
        simp only [List.map_cons, List.mem_cons] at hk
        rcases hk with hk | hk
        · exact absurd hk.symm hp
        · exact ih hk
  · have hany : ¬(m.any fun p => p.1 = k) = true :=
      fun h => hk ((any_fst_eq m k).mp h)
    rw [if_neg hany]
    clear hany
    induction m with
    | nil => simp [List.lookup]
    | cons p rest ih =>
      obtain ⟨pk, pv⟩ := p
      simp only [List.map_cons, List.mem_cons, not_or] at hk
      rw [List.cons_append, List.lookup_cons, show (k == pk) = false from
        beq_eq_false_iff_ne.mpr hk.1]
      exact ih hk.2

lemma lookup_dictInsert_other (m : List (String × List Job)) (k ka : String)
    (v : List Job) (h : ka ≠ k) :
    (dictInsert m k v).lookup ka = m.lookup ka := by
  unfold dictInsert
  by_cases hany : (m.any fun p => p.1 = k) = true
  · rw [if_pos hany]
    clear hany
    induction m with
    | nil => rfl
    | cons p rest ih =>
      obtain ⟨pk, pv⟩ := p
      by_cases hp : pk = k
      · rw [List.map_cons]
        rw [show (if (pk, pv).1 = k then (k, v) else (pk, pv)) = (k, v) from
          if_pos hp]
        rw [List.lookup_cons, List.lookup_cons]
        rw [show (ka == k) = false from beq_eq_false_iff_ne.mpr h,
          show (ka == pk) = false from
            beq_eq_false_iff_ne.mpr (hp ▸ h)]
        exact ih
      · rw [List.map_cons]
        rw [show (if (pk, pv).1 = k then (k, v) else (pk, pv)) = (pk, pv) from
          if_neg hp]
        rw [List.lookup_cons, List.lookup_cons]
        cases hka : (ka == pk) with
        | true => rfl
        | false => exact ih
  · rw [if_neg hany]
    induction m with
    | nil =>
      rw [List.nil_append, List.lookup_cons,
        show (ka == k) = false from beq_eq_false_iff_ne.mpr h]
    | cons p rest ih =>
      obtain ⟨pk, pv⟩ := p
      rw [List.cons_append, List.lookup_cons, List.lookup_cons]
      cases hka : (ka == pk) with
      | true => rfl
      | false =>
        exact ih (fun hr => hany (by
          rw [List.any_cons, hr, Bool.or_true]))

lemma scrape_all_eq_fold (ts : List (Company × TargetRun)) :
    scrape_all_companies ts = scrapeFold [] ts := rfl

lemma scrapeFold_keys_nodup (ts : List (Company × TargetRun))
    (acc : List (String × List Job)) (h : (acc.map Prod.fst).Nodup) :
    ((scrapeFold acc ts).map Prod.fst).Nodup := by
  induction ts generalizing acc with
  | nil => exact h
  | cons hd tl ih =>
    exact ih _ (dictInsert_keys_nodup acc hd.1.name (targetValue hd) h)

lemma scrapeFold_keys_mem (ts : List (Company × TargetRun))
    (acc : List (String × List Job)) (a : String) :
    a ∈ (scrapeFold acc ts).map Prod.fst ↔
      a ∈ acc.map Prod.fst ∨ a ∈ ts.map (fun cr => cr.1.name) := by
  induction ts generalizing acc with
  | nil => simp [scrapeFold]
  | cons hd tl ih =>
    show a ∈ (scrapeFold (dictInsert acc hd.1.name (targetValue hd)) tl).map
        Prod.fst ↔ _
    rw [ih, dictInsert_keys_mem]
    simp only [List.map_cons, List.mem_cons]
    tauto

lemma scrapeFold_lookup_not_mem (ts : List (Company × TargetRun))
    (acc : List (String × List Job)) (k : String)
    (h : k ∉ ts.map (fun cr => cr.1.name)) :
    (scrapeFold acc ts).lookup k = acc.lookup k := by
  induction ts generalizing acc with
  | nil => rfl
  | cons hd tl ih =>
    simp only [List.map_cons, List.mem_cons, not_or] at h
    show (scrapeFold (dictInsert acc hd.1.name (targetValue hd)) tl).lookup k = _
    rw [ih _ h.2, lookup_dictInsert_other _ _ _ _ h.1]

lemma scrapeFold_lookup_mem (ts : List (Company × TargetRun))
    (acc : List (String × List Job)) (cr : Company × TargetRun)
    (hcr : cr ∈ ts) (hnodup : (ts.map (fun cr => cr.1.name)).Nodup) :
    (scrapeFold acc ts).lookup cr.1.name = some (targetValue cr) := by
  induction ts generalizing acc with
  | nil => exact absurd hcr (List.not_mem_nil cr)
  | cons hd tl ih =>
    simp only [List.map_cons, List.nodup_cons] at hnodup
    rcases List.mem_cons.mp hcr with rfl | hmem
    · show (scrapeFold (dictInsert acc cr.1.name (targetValue cr)) tl).lookup
          cr.1.name = _
      rw [scrapeFold_lookup_not_mem _ _ _ hnodup.1]
      exact lookup_dictInsert_self _ _ _
    · exact ih _ hmem hnodup.2

/-- Any per-target fault yields the empty job list for that target. -/
lemma targetValue_of_fault (r : TargetRun) (h : HasFault r) :
    gatherProcess (taskResult r) = [] := by
  unfold taskResult gatherProcess scrape_company
  rcases hf : r.taskFault with _ | e
  · rcases h with hfetch | ⟨e2, hext⟩ | htask
    · rw [hfetch]
    · rw [hext]
      cases r.fetch <;> rfl
    · exact absurd hf htask
  · rfl

/-! ## Fetch-trace lemmas -/
lemma requestCount_append (a b : List FetchEvent) :
    requestCount (a ++ b) = requestCount a + requestCount b := by
  simp [requestCount, List.filter_append]

lemma backoffSleeps_append (a b : List FetchEvent) :
    backoffSleeps (a ++ b) = backoffSleeps a ++ backoffSleeps b := by
  simp [backoffSleeps]

lemma rateWaitDelays_append (a b : List FetchEvent) :
    rateWaitDelays (a ++ b) = rateWaitDelays a ++ rateWaitDelays b := by
  simp [rateWaitDelays]

lemma requestCount_branchEvents (a : ℕ) (o : HttpOutcome) (p : Option ℕ) :
    requestCount (branchEvents a o p) = 0 := by
  cases o <;> cases p <;> rfl

lemma backoffSleeps_branchEvents (a : ℕ) (o : HttpOutcome) (p : Option ℕ) :
    backoffSleeps (branchEvents a o p) = [] := by
  cases o <;> cases p <;> rfl

lemma rateWaitDelays_branchEvents (a : ℕ) (o : HttpOutcome) (p : Option ℕ) :
    rateWaitDelays (branchEvents a o p) = [] := by
  cases o <;> cases p <;> rfl

/-- Trace shape of the attempt loop: at most rem GETs; at least one GET
when rem is positive; the backoff sleeps are exactly 2^a for the
attempts a before the last GET; every rate-limit wait uses the
hard-coded minimum delay 2. -/
lemma fetch_loop_trace (ctx : FetchCtx) (domain : String) :
    ∀ (rem attempt : ℕ),
      requestCount (fetch_loop ctx domain attempt rem).2 ≤ rem ∧
      (0 < rem → 0 < requestCount (fetch_loop ctx domain attempt rem).2) ∧
      backoffSleeps (fetch_loop ctx domain attempt rem).2 =
        (List.range' attempt
          (requestCount (fetch_loop ctx domain attempt rem).2 - 1)).map
          (2 ^ ·) ∧
      rateWaitDelays (fetch_loop ctx domain attempt rem).2 =
        List.replicate (requestCount (fetch_loop ctx domain attempt rem).2) 2 := by
  intro rem
  induction rem with
  | zero =>
    intro attempt
    refine ⟨by simp [fetch_loop, requestCount], by simp, ?_, ?_⟩ <;>
      simp [fetch_loop, requestCount, backoffSleeps, rateWaitDelays]
  | succ m ih =>
    intro attempt
    rcases ho : ctx.outcomes attempt with body | _ | code | _ | _
    all_goals
      simp only [fetch_loop, ho]
    case ok =>
      refine ⟨?_, ?_, ?_, ?_⟩ <;>
        simp [requestCount, backoffSleeps, rateWaitDelays, List.filter,
          List.filterMap]
    all_goals {
      obtain ⟨ih1, ih2, ih3, ih4⟩ := ih (attempt + 1)
      have hpre : requestCount [FetchEvent.rateWait domain 2,
          FetchEvent.request attempt (ctx.proxyAt attempt)] = 1 := rfl
      constructor
      · simp only [requestCount_append, hpre, requestCount_branchEvents]
        have hback : requestCount
            (if 0 < m then [FetchEvent.backoffSleep (2 ^ attempt)] else []) = 0 := by
          by_cases hm : 0 < m <;> simp [hm, requestCount]
        omega
      constructor
      · intro _
        simp only [requestCount_append, hpre]
        omega
      constructor
      · simp only [backoffSleeps_append, requestCount_append, hpre,
          requestCount_branchEvents, backoffSleeps_branchEvents]
        have hpreb : backoffSleeps [FetchEvent.rateWait domain 2,
            FetchEvent.request attempt (ctx.proxyAt attempt)] = [] := rfl
        rw [hpreb]
        by_cases hm : 0 < m
        · have hk1 : 0 < requestCount (fetch_loop ctx domain (attempt + 1) m).2 :=
            ih2 hm
          have hback : backoffSleeps
              (if 0 < m then [FetchEvent.backoffSleep (2 ^ attempt)] else []) =
              [2 ^ attempt] := by simp [hm, backoffSleeps]
          have hbackr : requestCount
              (if 0 < m then [FetchEvent.backoffSleep (2 ^ attempt)] else []) = 0 := by
            simp [hm, requestCount]
          rw [hback, hbackr, ih3]
          simp only [Nat.add_zero, Nat.zero_add, Nat.add_sub_cancel_left]
          have hr : List.range' attempt
              (requestCount (fetch_loop ctx domain (attempt + 1) m).2) =
              attempt :: List.range' (attempt + 1)
                (requestCount (fetch_loop ctx domain (attempt + 1) m).2 - 1) := by
            rcases Nat.exists_eq_succ_of_ne_zero (Nat.pos_iff_ne_zero.mp hk1) with ⟨k, hk⟩
            rw [hk]
            simp [List.range'_succ]
          rw [hr]
          simp
        · have hm0 : m = 0 := by omega
          subst hm0
          have hback : backoffSleeps
              (if (0 : ℕ) < 0 then [FetchEvent.backoffSleep (2 ^ attempt)] else []) =
              [] := by simp [backoffSleeps]
          have hbackr : requestCount
              (if (0 : ℕ) < 0 then [FetchEvent.backoffSleep (2 ^ attempt)] else []) = 0 := by
            simp [requestCount]
          rw [hback, hbackr]
          have hzero : (fetch_loop ctx domain (attempt + 1) 0) = (none, []) := rfl
          rw [hzero]
          simp [backoffSleeps, requestCount]
      · simp only [rateWaitDelays_append, requestCount_append, hpre,
          requestCount_branchEvents, rateWaitDelays_branchEvents, ih4]
        have hprew : rateWaitDelays [FetchEvent.rateWait domain 2,
            FetchEvent.request attempt (ctx.proxyAt attempt)] = [2] := rfl
        have hback : rateWaitDelays
            (if 0 < m then [FetchEvent.backoffSleep (2 ^ attempt)] else []) = [] := by
          by_cases hm : 0 < m <;> simp [hm, rateWaitDelays]
        have hbackr : requestCount
            (if 0 < m then [FetchEvent.backoffSleep (2 ^ attempt)] else []) = 0 := by
          by_cases hm : 0 < m <;> simp [hm, requestCount]
        rw [hprew, hback, hbackr]
        simp only [Nat.add_zero, Nat.zero_add]
        rw [Nat.add_comm 1 (requestCount (fetch_loop ctx domain (attempt + 1) m).2),
          List.replicate_succ]
        simp
    }

/-- When every attempt in the window fails, the loop returns none. -/
lemma fetch_loop_none (ctx : FetchCtx) (domain : String) :
    ∀ (rem attempt : ℕ),
      (∀ a, attempt ≤ a → a < attempt + rem → (ctx.outcomes a).isOk = false) →
      (fetch_loop ctx domain attempt rem).1 = none := by
  intro rem
  induction rem with
  | zero => intro attempt _; rfl
  | succ m ih =>
    intro attempt hall
    rcases ho : ctx.outcomes attempt with body | _ | code | _ | _
    · have := hall attempt (le_refl attempt) (by omega)
      rw [ho] at this
      simp [HttpOutcome.isOk] at this
    all_goals
      simp only [fetch_loop, ho]
      exact ih (attempt + 1) (fun a h1 h2 => hall a (by omega) (by omega))

/-- A transport error with a proxy in use, reached after only failed
attempts, marks that proxy failed somewhere in the trace. -/
lemma fetch_loop_mark_mem (ctx : FetchCtx) (domain : String) :
    ∀ (rem attempt a i : ℕ), attempt ≤ a → a < attempt + rem →
      (∀ b, attempt ≤ b → b < a → (ctx.outcomes b).isOk = false) →
      ctx.outcomes a = HttpOutcome.transportError →
      ctx.proxyAt a = some i →
      FetchEvent.markFailed i ∈ (fetch_loop ctx domain attempt rem).2 := by
  intro rem
  induction rem with
  | zero => intro attempt a i h1 h2 _ _ _; omega
  | succ m ih =>
    intro attempt a i h1 h2 hprev htrans hproxy
    by_cases haa : a = attempt
    · subst haa
      simp only [fetch_loop, htrans, branchEvents, hproxy]
      simp
    · have hlt : attempt < a := lt_of_le_of_ne h1 (fun h => haa h.symm)
      have hfail : (ctx.outcomes attempt).isOk = false :=
        hprev attempt (le_refl attempt) hlt
      rcases ho : ctx.outcomes attempt with body | _ | code | _ | _
      · rw [ho] at hfail
        simp [HttpOutcome.isOk] at hfail
      all_goals
        simp only [fetch_loop, ho, List.mem_append]
        exact Or.inr (ih (attempt + 1) a i (by omega) (by omega)
          (fun b hb1 hb2 => hprev b (by omega) hb2) htrans hproxy)

/-! ## Claim theorems -/
/-- C1: the claim says the id assigned to an extracted JobRecord is a
pure function of (target name, title, location), identical across runs.
The code derives it from Python's built-in hash of title ++ location,
which is salted per process, so the id depends on the run's hash
function as well: two runs whose hashes differ on the same input
produce different ids for the same (target name, title, location). -/
theorem C1_job_id_depends_on_hash_salt :
    job_id (fun _ => 0) "Acme" "Engineer" "NYC" ≠
      job_id (fun _ => 1) "Acme" "Engineer" "NYC" := by decide

/-- C2 counterexample: a target whose fetch and extraction succeed but
whose every save_job call fails (a persistence failure) still gets its
full, non-empty extracted job list in the returned mapping — not the
empty list the claim asserts for persistence failures; the saved tally
is 0. -/
theorem C2_counterexample :
    tPersist.2.saveOk 0 = false ∧
    saved_count tPersist.2 = 0 ∧
    (scrape_all_companies [tPersist]).lookup "Beta" = some [jobBeta] ∧
    some [jobBeta] ≠ some ([] : List Job) := by
  refine ⟨rfl, rfl, ?_, by decide⟩
  decide

/-- C2 amended: scrape_all_companies returns exactly one entry per
configured target name and never propagates an exception; a failed
fetch, an extractor exception, or a fault escaping the task yields an
empty job list for that target, while a persistence failure leaves the
returned mapping unchanged — the per-target result is independent of
the save outcomes, so the extracted job list is returned no matter
which saves fail; with unique target names each target's entry holds
exactly its task's processed result. -/
theorem C2_scrape_all_per_target_corrected
    (targets : List (Company × TargetRun)) :
    ((scrape_all_companies targets).map Prod.fst).Nodup ∧
    (∀ nm, nm ∈ (scrape_all_companies targets).map Prod.fst ↔
      nm ∈ targets.map (fun cr => cr.1.name)) ∧
    (∀ r : TargetRun, HasFault r → gatherProcess (taskResult r) = []) ∧
    (∀ r r2 : TargetRun, r.fetch = r2.fetch → r.extractJobs = r2.extractJobs →
      r.taskFault = r2.taskFault →
      gatherProcess (taskResult r) = gatherProcess (taskResult r2)) ∧
    ((targets.map (fun cr => cr.1.name)).Nodup →
      ∀ cr ∈ targets, (scrape_all_companies targets).lookup cr.1.name =
        some (gatherProcess (taskResult cr.2))) := by
  refine ⟨?_, ?_, ?_, ?_, ?_⟩
  · rw [scrape_all_eq_fold]
    exact scrapeFold_keys_nodup targets [] (by simp)
  · intro nm
    rw [scrape_all_eq_fold, scrapeFold_keys_mem]
    simp
  · intro r hr
    exact targetValue_of_fault r hr
  · intro r r2 h1 h2 h3
    unfold gatherProcess taskResult scrape_company
    rw [h1, h2, h3]
  · intro hnodup cr hcr
    rw [scrape_all_eq_fold]
    exact scrapeFold_lookup_mem targets [] cr hcr hnodup

/-- Witness for the amended C2 on a concrete two-target batch: the
fetch-failed target maps to the empty list and the all-saves-fail
target maps to its full extracted list. -/
theorem C2_witness_corrected :
    (scrape_all_companies targetsW).lookup "Alpha" = some [] ∧
    (scrape_all_companies targetsW).lookup "Beta" = some [jobBeta] :=
  ⟨(C2_scrape_all_per_target_corrected targetsW).2.2.2.2 (by decide) tW0
      (List.mem_cons_self tW0 [tPersist]),
   (C2_scrape_all_per_target_corrected targetsW).2.2.2.2 (by decide) tPersist
      (List.mem_cons_of_mem tW0 (List.mem_cons_self tPersist []))⟩

/-- C3: extract_salary meets the specification's vectors:
"$100k - $150k" parses to (100000, 150000), "100-150k" to
(100000, 150000), "$120,000" to (120000, 120000); the empty string and
any text no pattern matches yield (none, none); and whenever the letter
k appears anywhere in the text (case-insensitively), the matched
numeric groups are scaled by 1000. -/
theorem C3_extract_salary_spec :
    extract_salary "$100k - $150k" = (some 100000, some 150000) ∧
    extract_salary "100-150k" = (some 100000, some 150000) ∧
    extract_salary "$120,000" = (some 120000, some 120000) ∧
    extract_salary "" = (none, none) ∧
    (∀ s : String, extract_salary_match s.data = none →
      extract_salary s = (none, none)) ∧
    (∀ (s : String) (lo hi : ℕ), hasK s = true →
      extract_salary_match s.data = some (lo, hi) →
      extract_salary s = (some (lo * 1000), some (hi * 1000))) := by
  refine ⟨?_, ?_, ?_, by simp [extract_salary], ?_, ?_⟩
  · simp [extract_salary, extract_salary_match, searchToks, matchToks, pattern1,
      pattern2, pattern3, hasK, groupsToRange, groupsToSingle, natOfDigits,
      digitC, spaceC, currC, commaC, kC, dashC, Option.orElse]
  · simp [extract_salary, extract_salary_match, searchToks, matchToks, pattern1,
      pattern2, pattern3, hasK, groupsToRange, groupsToSingle, natOfDigits,
      digitC, spaceC, currC, commaC, kC, dashC, Option.orElse]
  · simp [extract_salary, extract_salary_match, searchToks, matchToks, pattern1,
      pattern2, pattern3, hasK, groupsToRange, groupsToSingle, natOfDigits,
      digitC, spaceC, currC, commaC, kC, dashC, Option.orElse]
  · intro s hm
    unfold extract_salary
    by_cases he : s.data = []
    · rw [if_pos he]
    · rw [if_neg he, hm]
  · intro s lo hi hk hm
    have he : s.data ≠ [] := by
      intro h
      rw [hasK, h] at hk
      simp at hk
    unfold extract_salary
    rw [if_neg he, hm]
    simp [hk]

/-- Witness for C3's universally quantified parts at concrete inputs:
a text matching no pattern, and a matched text containing k. -/
theorem C3_witness :
    extract_salary "competitive" = (none, none) ∧
    extract_salary "10-20k" = (some 10000, some 20000) :=
  ⟨C3_extract_salary_spec.2.2.2.2.1 "competitive" (by
      simp [extract_salary_match, searchToks, matchToks, pattern1,
        pattern2, pattern3, groupsToRange, groupsToSingle,
        digitC, spaceC, currC, commaC, kC, dashC, Option.orElse]),
   C3_extract_salary_spec.2.2.2.2.2 "10-20k" 10 20 rfl (by
      simp [extract_salary_match, searchToks, matchToks, pattern1,
        pattern2, pattern3, groupsToRange, groupsToSingle, natOfDigits,
        digitC, spaceC, currC, commaC, kC, dashC, Option.orElse])⟩

/-- C4: fetch_page issues at most 3 GETs; when attempts 1 and 2 fail
and attempt 3 returns 200 the page body is returned; when all 3
attempts fail it returns none; and the backoff sleeps between
consecutive attempts follow the schedule 2^attempt (1s after attempt
0, 2s after attempt 1, never after the final attempt). -/
theorem C4_fetch_page_retry (ctx : FetchCtx) (url cname : String) :
    requestCount (fetch_page ctx url cname).2 ≤ 3 ∧
    (∀ body : String,
      (ctx.outcomes 0).isOk = false → (ctx.outcomes 1).isOk = false →
      ctx.outcomes 2 = HttpOutcome.ok body →
      (fetch_page ctx url cname).1 = some body) ∧
    ((∀ a, a < 3 → (ctx.outcomes a).isOk = false) →
      (fetch_page ctx url cname).1 = none) ∧
    backoffSleeps (fetch_page ctx url cname).2 =
      (List.range (requestCount (fetch_page ctx url cname).2 - 1)).map (2 ^ ·) := by
  obtain ⟨h1, h2, h3, h4⟩ := fetch_loop_trace ctx (urlDomain url) 3 0
  refine ⟨h1, ?_, ?_, ?_⟩
  · intro body hf0 hf1 hok
    rcases hc0 : ctx.outcomes 0 with b0 | _ | c0 | _ | _
    · rw [hc0] at hf0
      simp [HttpOutcome.isOk] at hf0
    all_goals
      rcases hc1 : ctx.outcomes 1 with b1 | _ | c1 | _ | _
    case rateLimited.ok =>
      rw [hc1] at hf1; simp [HttpOutcome.isOk] at hf1
    case otherStatus.ok =>
      rw [hc1] at hf1; simp [HttpOutcome.isOk] at hf1
    case timeout.ok =>
      rw [hc1] at hf1; simp [HttpOutcome.isOk] at hf1
    case transportError.ok =>
      rw [hc1] at hf1; simp [HttpOutcome.isOk] at hf1
    all_goals
      show (fetch_loop ctx (urlDomain url) 0 3).1 = some body
    all_goals
      simp only [fetch_loop, hc0, hc1, hok]
  · intro hall
    exact fetch_loop_none ctx (urlDomain url) 3 0
      (fun a ha0 ha3 => hall a (by omega))
  · show backoffSleeps (fetch_loop ctx (urlDomain url) 0 3).2 =
      (List.range (requestCount (fetch_loop ctx (urlDomain url) 0 3).2 - 1)).map
        (2 ^ ·)
    rw [h3, List.range_eq_range']

/-- Witness for C4 on a run whose first two attempts time out and whose
third returns 200 with body "page". -/
theorem C4_witness :
    (fetch_page ctxThirdOk "http://x.example/jobs" "X").1 = some "page" :=
  (C4_fetch_page_retry ctxThirdOk "http://x.example/jobs" "X").2.1 "page"
    (by decide) (by decide) (by decide)

/-- C5: once mark_proxy_failed i has run, no later get_next_proxy call
returns index i as long as reset_failed_proxies is not invoked, for any
prior history and any interleaving of next and mark operations; and
get_next_proxy returns none whenever the active set is empty. -/
theorem C5_failed_proxy_never_returned
    (pick : Finset ℕ → ℕ) (hpick : ∀ t : Finset ℕ, t.Nonempty → pick t ∈ t)
    (n : ℕ) (t0 : ℚ) (ops1 ops2 : List POp) (i : ℕ)
    (hreset : POp.reset ∉ ops2) :
    (∀ o ∈ outputs pick
        (mark_proxy_failed i (runOps pick (initProxy n t0) ops1)) ops2,
      o ≠ some i) ∧
    (∀ (s : ProxyState) (now : ℚ), s.active = ∅ →
      (get_next_proxy pick now s).1 = none) := by
  constructor
  · exact (not_active_outputs pick hpick i _ (mark_not_active i _) ops2 hreset).1
  · intro s now hs
    unfold get_next_proxy
    rw [if_pos hs]

/-- Witness for C5: a two-proxy pool, proxy 0 marked failed, then one
next call at time 1. -/
theorem C5_witness :
    (∀ o ∈ outputs pickMin
        (mark_proxy_failed 0 (runOps pickMin (initProxy 2 0) []))
        [POp.next 1],
      o ≠ some 0) ∧
    (∀ (s : ProxyState) (now : ℚ), s.active = ∅ →
      (get_next_proxy pickMin now s).1 = none) :=
  C5_failed_proxy_never_returned pickMin pickMin_mem 2 0 [] [POp.next 1] 0
    (by decide)

/-- C6: wait_if_needed always records the completion-time clock reading
as the domain's new last-request time (even when no wait was needed),
never touches other domains' entries, computes its sleep from the
domain's own entry alone, sleeps exactly the remainder
minDelay - elapsed when called too early, and hence completes no
earlier than minDelay after the previous request. -/
theorem C6_wait_if_needed_contract (st : String → Option ℚ) (domain : String)
    (minDelay t1 t2 : ℚ) :
    (wait_if_needed st domain minDelay t1 t2).2 domain = some t2 ∧
    (∀ d, d ≠ domain → (wait_if_needed st domain minDelay t1 t2).2 d = st d) ∧
    (∀ st2 : String → Option ℚ, st2 domain = st domain →
      (wait_if_needed st2 domain minDelay t1 t2).1 =
        (wait_if_needed st domain minDelay t1 t2).1) ∧
    (∀ last, st domain = some last →
      (t1 - last < minDelay →
        (wait_if_needed st domain minDelay t1 t2).1 = minDelay - (t1 - last)) ∧
      (t1 + (wait_if_needed st domain minDelay t1 t2).1 ≤ t2 →
        last + minDelay ≤ t2)) := by
  refine ⟨?_, ?_, ?_, ?_⟩
  · simp [wait_if_needed]
  · intro d hd
    simp [wait_if_needed, hd]
  · intro st2 h2
    simp [wait_if_needed, h2]
  · intro last hl
    constructor
    · intro hlt
      simp [wait_if_needed, hl, hlt]
    · intro ht2
      unfold wait_if_needed at ht2
      rw [hl] at ht2
      simp only at ht2
      by_cases hlt : t1 - last < minDelay
      · rw [if_pos hlt] at ht2
        linarith
      · rw [if_neg hlt] at ht2
        push_neg at hlt
        linarith

/-- Witness for C6: previous request at time 10, call at time 11 with
minimum delay 2 completing at time 13. -/
theorem C6_witness :
    (wait_if_needed stW "a.com" 2 11 13).2 "a.com" = some 13 ∧
    (wait_if_needed stW "a.com" 2 11 13).1 = 2 - (11 - 10) ∧
    ((11 : ℚ) + (wait_if_needed stW "a.com" 2 11 13).1 ≤ 13 →
      (10 : ℚ) + 2 ≤ 13) :=
  ⟨(C6_wait_if_needed_contract stW "a.com" 2 11 13).1,
   ((C6_wait_if_needed_contract stW "a.com" 2 11 13).2.2.2 10 (by decide)).1
     (by norm_num),
   ((C6_wait_if_needed_contract stW "a.com" 2 11 13).2.2.2 10 (by decide)).2⟩

/-- C7 counterexample: a run where every attempt ends in a timeout with
proxy 5 in use, yet the trace contains no mark-failed event at all —
the asyncio.TimeoutError branch of fetch_page (lines 320-321) does not
mark the proxy, contradicting the claim for timeouts. -/
theorem C7_counterexample :
    ctxTimeoutOnly.outcomes 0 = HttpOutcome.timeout ∧
    ctxTimeoutOnly.proxyAt 0 = some 5 ∧
    (fetch_page ctxTimeoutOnly "http://a.example/b" "A").2.filter
      (fun e => match e with | FetchEvent.markFailed _ => true | _ => false)
      = [] := by
  refine ⟨rfl, rfl, ?_⟩
  decide

/-- C7 amended: on every fetch attempt that ends in a non-timeout
transport error (the generic exception branch, lines 322-328), if a
proxy was in use for that attempt, that proxy is marked failed in the
trace; timeouts do not mark the proxy. -/
theorem C7_transport_error_marks_proxy (ctx : FetchCtx) (url cname : String)
    (a i : ℕ) (ha : a < 3)
    (hprev : ∀ b, b < a → (ctx.outcomes b).isOk = false)
    (htrans : ctx.outcomes a = HttpOutcome.transportError)
    (hproxy : ctx.proxyAt a = some i) :
    FetchEvent.markFailed i ∈ (fetch_page ctx url cname).2 :=
  fetch_loop_mark_mem ctx (urlDomain url) 3 0 a i (Nat.zero_le a)
    (by omega) (fun b _ hb2 => hprev b hb2) htrans hproxy

/-- Witness for the amended C7: a transport error on attempt 0 with
proxy 3 in use marks proxy 3. -/
theorem C7_witness :
    FetchEvent.markFailed 3 ∈ (fetch_page ctxTransport "http://a.example/b" "A").2 :=
  C7_transport_error_marks_proxy ctxTransport "http://a.example/b" "A" 0 3
    (by decide) (fun b hb => absurd hb (Nat.not_lt_zero b)) rfl rfl

/-- C8: the claim says the fetch engine's rate-limit wait uses the
target's configured per-target minimum delay.  fetch_page receives only
the company name and passes the hard-coded constant 2.0 to
wait_if_needed (line 297), so a target configured with rate_limit = 5
still waits with minimum delay 2 on every attempt. -/
theorem C8_rate_limit_delay_hardcoded :
    acmeCompany.rate_limit = 5 ∧
    rateWaitDelays
      (fetch_page ctxTimeoutOnly acmeCompany.career_url acmeCompany.name).2
      = [2, 2, 2] ∧
    (2 : ℚ) ≠ acmeCompany.rate_limit := by
  refine ⟨rfl, ?_, by norm_num [acmeCompany]⟩
  decide

/-- C9: from the initial pool state, any sequence of get_next_proxy,
mark_proxy_failed and reset_failed_proxies calls preserves the
partition invariant: active and failed are disjoint and every
configured index is in exactly one of them. -/
theorem C9_pool_partition_invariant (pick : Finset ℕ → ℕ) (n : ℕ) (t0 : ℚ)
    (ops : List POp) :
    (∀ j, ¬(j ∈ (runOps pick (initProxy n t0) ops).active ∧
      j ∈ (runOps pick (initProxy n t0) ops).failed)) ∧
    (∀ j, j < n ↔ (j ∈ (runOps pick (initProxy n t0) ops).active ∨
      j ∈ (runOps pick (initProxy n t0) ops).failed)) := by
  obtain ⟨hdisj, hcover⟩ :=
    poolInv_runOps n pick (initProxy n t0) ops (poolInv_init n t0)
  constructor
  · intro j hj
    have : j ∈ (runOps pick (initProxy n t0) ops).active ∩
        (runOps pick (initProxy n t0) ops).failed :=
      Finset.mem_inter.mpr hj
    rw [hdisj] at this
    exact Finset.not_mem_empty j this
  · intro j
    rw [← Finset.mem_range, ← hcover, Finset.mem_union]

/-- C10: the job id for a target is the slugged name followed by a hash
residue modulo 10000, so at most 10000 distinct ids exist per target;
the distinct postings ("ab","c") and ("a","bc") concatenate to the same
string and therefore collide on the id under every hash; and saving
both through the id-keyed INSERT OR REPLACE leaves only the second,
silently overwriting the first. -/
theorem C10_id_space_collision_overwrite (h : String → Int) (nm : String) :
    (∀ title location, job_id h nm title location ∈ possibleIds nm) ∧
    (possibleIds nm).card ≤ 10000 ∧
    (("ab", "c") ≠ (("a", "bc") : String × String)) ∧
    job_id h nm "ab" "c" = job_id h nm "a" "bc" ∧
    extractedJob h (companyNamed nm) "ab" "c" "" "" none none "" ≠
      extractedJob h (companyNamed nm) "a" "bc" "" "" none none "" ∧
    save_job (extractedJob h (companyNamed nm) "a" "bc" "" "" none none "")
        (save_job (extractedJob h (companyNamed nm) "ab" "c" "" "" none none "") [])
      = [extractedJob h (companyNamed nm) "a" "bc" "" "" none none ""] := by
  have hcat : ("ab" : String) ++ "c" = "a" ++ "bc" := by decide
  have hid : job_id h nm "ab" "c" = job_id h nm "a" "bc" := by
    unfold job_id
    rw [hcat]
  refine ⟨fun t l => job_id_mem_possibleIds h nm t l, ?_, by decide, hid, ?_, ?_⟩
  · exact le_trans Finset.card_image_le (by simp)
  · intro he
    have := congrArg Job.title he
    simp [extractedJob] at this
  · have hid2 : (extractedJob h (companyNamed nm) "ab" "c" "" "" none none "").id =
        (extractedJob h (companyNamed nm) "a" "bc" "" "" none none "").id := hid
    simp [save_job, hid2]

end CareerPortal

